import Mathlib

/-!
Verification of the rememorium prioritization & performance-aggregation engine.

Shallow embedding of the core functions of the repository:

* `utils.js`      — value parsers (`pctNumber`, `converterParaPorcentagem`,
  `extrairTotalQuestoes`), aggregators (`calcularTotalQuestoes`,
  `calcularEcoDaPerformance`), and the priority selector
  (`selecionarFragmentosUrgentesOuRecentes`);
* `modules/fragmentos.js` — the urgency classifier `calcularAura`;
* `database.js`   — the history ledger `salvarFragmentoNoFirestore` and
  `excluirRevisaoDoCiclo`, modelled as pure transitions on the list of
  stored records.

Modelling conventions:

* JavaScript numbers are modelled as exact rationals (`ℚ`); IEEE-754 rounding
  is not modelled.  On every concrete input evaluated by a theorem below the
  float computation and the rational computation agree.
* A JavaScript value that may be `undefined`, `null`, `NaN`, a number or a
  string is modelled by `JSVal`.  `Infinity` is a distinct constructor; both
  infinities behave identically to `NaN` in every embedded function (each one
  only tests finiteness), so a single constructor suffices.
* A date string is modelled by its `new Date(...)` parse result: `some t`
  (epoch milliseconds) when parsable, `none` when the string is missing or
  unparsable (an invalid `Date`, i.e. `NaN`).
* `Number(string)` coercion is modelled for decimal literals (optional sign,
  digits, optional fractional part); other numeric forms (hex, exponent,
  `"Infinity"`) are conflated with `NaN`.  No claim below evaluates the
  coercion on such a string, and in `pctNumber` both classes are non-finite
  and produce the same output `0`.
-/

namespace Rememorium

/-- Model of the JavaScript values that flow through the engine:
`undefined`, `null`, `NaN`, `Infinity` (either sign — see the header note),
finite numbers, strings. -/
inductive JSVal where
  | vundef
  | vnull
  | vnan
  | vinf
  | vnum (q : ℚ)
  | vstr (s : String)
deriving DecidableEq

/-- JavaScript truthiness of a `JSVal`. -/
def jsTruthy : JSVal → Bool
  | .vundef => false
  | .vnull => false
  | .vnan => false
  | .vinf => true
  | .vnum q => q != 0
  | .vstr s => s != ""

/-- Numeric value of a list of decimal digit characters (base 10). -/
def digitsVal (cs : List Char) : ℕ :=
  cs.foldl (fun a c => a * 10 + (c.toNat - 48)) 0

/-- Decimal-literal core of JavaScript `Number(string)` coercion:
`digits`, `digits.digits`, `digits.` or `.digits` (no sign). -/
def parseDecCore (cs : List Char) : Option ℚ :=
  if cs.contains '.' then
    let intPart := cs.takeWhile (fun c => c ≠ '.')
    let rest := (cs.dropWhile (fun c => c ≠ '.')).drop 1
    if rest.contains '.' then none
    else if intPart.all Char.isDigit && rest.all Char.isDigit
            && (!intPart.isEmpty || !rest.isEmpty) then
      some ((digitsVal intPart : ℚ) + (digitsVal rest : ℚ) / (10 ^ rest.length))
    else none
  else
    if !cs.isEmpty && cs.all Char.isDigit then some (digitsVal cs) else none

/-- Decimal literal with optional sign. -/
def parseDec (cs : List Char) : Option ℚ :=
  match cs with
  | '+' :: rest => parseDecCore rest
  | '-' :: rest => (parseDecCore rest).map Neg.neg
  | _ => parseDecCore cs

/-- Whitespace trim on a character list (both ends), as `String.prototype.trim`
and the leading/trailing-whitespace step of `Number(string)`. -/
def trimJS (cs : List Char) : List Char :=
  ((cs.dropWhile Char.isWhitespace).reverse.dropWhile Char.isWhitespace).reverse

/-- `Number(s)` on the character list of a string `s` (see the header note on
the modelled fragment): whitespace is trimmed, the empty string coerces to
`0`, a decimal literal to its value, anything else to `NaN`. -/
def jsStringToNumberL (cs : List Char) : JSVal :=
  let t := trimJS cs
  if t.isEmpty then .vnum 0
  else
    match parseDec t with
    | some q => .vnum q
    | none => .vnan

/-- `Number(s)` for a string `s`. -/
def jsStringToNumber (s : String) : JSVal :=
  jsStringToNumberL s.toList

/-- `Number(v)` for a non-string or string value. -/
def jsToNumber : JSVal → JSVal
  | .vundef => .vnan
  | .vnull => .vnum 0
  | .vnan => .vnan
  | .vinf => .vinf
  | .vnum q => .vnum q
  | .vstr s => jsStringToNumber s

/-- `Math.round(q)` — JavaScript rounds half toward `+∞`. -/
def jsRound (q : ℚ) : ℤ := ⌊q + 1 / 2⌋

/-- First match of the regular expression `/(\d+)[\/,](\d+)/` in a character
list, returning the two captured digit groups as numbers.  The regex engine
tries each start position from the left; at a given start, `(\d+)` greedily
takes the maximal digit run (no shorter run can be followed by `[/,]`, since
every proper prefix of a digit run is followed by a digit). -/
def findFrac : List Char → Option (ℕ × ℕ)
  | [] => none
  | c :: rest =>
    if c.isDigit then
      let d1 := (c :: rest).takeWhile Char.isDigit
      let after := (c :: rest).dropWhile Char.isDigit
      match after with
      | sep :: tail =>
        if sep = '/' ∨ sep = ',' then
          match tail.takeWhile Char.isDigit with
          | [] => findFrac rest
          | d2 => some (digitsVal d1, digitsVal d2)
        else findFrac rest
      | [] => findFrac rest
    else findFrac rest

/-- `converterParaPorcentagem` (utils.js): a string matching
`(\d+)[\/,](\d+)` anywhere becomes `Math.round(100 * acertos/total)`
(`0` when `total` is `0`); any other value is coerced with `Number`. -/
def converterParaPorcentagem (valor : JSVal) : JSVal :=
  match valor with
  | .vstr s =>
    match findFrac s.toList with
    | some (acertos, total) =>
      if total = 0 then .vnum 0
      else .vnum ((jsRound ((acertos : ℚ) / (total : ℚ) * 100) : ℚ))
    | none => jsStringToNumber s
  | v => jsToNumber v

/-- Result of `Number(String(v).replace('%','').trim())` inside `pctNumber`,
by cases on `v`.  For a finite number the string round-trip is the identity
(its decimal rendering contains no `'%'` and re-coerces to the same value);
`undefined` renders as `"undefined"` (→ `NaN`), `NaN` as `"NaN"` (→ `NaN`),
`Infinity` as `"Infinity"` (→ `Infinity`, non-finite).  The `vnull` case is
unreachable in `pctNumber` (early `v == null` return). -/
def pctParsed : JSVal → JSVal
  | .vundef => .vnan
  | .vnull => .vnan
  | .vnan => .vnan
  | .vinf => .vinf
  | .vnum q => .vnum q
  | .vstr s => jsStringToNumberL (trimJS (removeFirstPct s.toList))
where
  /-- `String.replace('%','')` removes the first occurrence only. -/
  removeFirstPct : List Char → List Char
    | [] => []
    | x :: xs => if x = '%' then xs else x :: removeFirstPct xs

/-- `true` when the modelled coercion result is not a finite number. -/
def naoFinito : JSVal → Bool
  | .vnum _ => false
  | _ => true

/-- `pctNumber` (utils.js): `null`/`undefined` → `0`; otherwise stringify,
remove the first `'%'`, trim, coerce with `Number`; non-finite → `0`,
else clamp into `[0, 100]`. -/
def pctNumber (v : JSVal) : ℚ :=
  match v with
  | .vundef => 0
  | .vnull => 0
  | w =>
    match pctParsed w with
    | .vnum q => max 0 (min 100 q)
    | _ => 0

/-- `extrairTotalQuestoes` (utils.js): the denominator of the first
`(\d+)[\/,](\d+)` match of a string, `0` for no match or a non-string. -/
def extrairTotalQuestoes (valor : JSVal) : ℕ :=
  match valor with
  | .vstr s =>
    match findFrac s.toList with
    | some (_, total) => total
    | none => 0
  | _ => 0

/-- One review-cycle snapshot, as stored in a record's `historico` array.
The fields are exactly those the embedded functions read or write:
`salvarFragmentoNoFirestore` writes `data`/`ecoInicial`/`ecoFinal`/`confianca`
(and no `ecoFinalRaw`, modelled as `vundef`), `calcularTotalQuestoes` reads
`ecoInicial`/`ecoFinal`, `calcularEcoDaPerformance` reads `ecoFinalRaw`. -/
structure Ciclo where
  data : Option ℤ
  ecoInicial : JSVal
  ecoFinal : JSVal
  ecoFinalRaw : JSVal
  confianca : String
deriving DecidableEq

/-- A topic record (fragment).  Fields not read or written by any embedded
function (`ownerUid`, `hashtags`, `revisaoTimestamp`) are omitted; they are
carried through the ledger unchanged and feed no verified computation.
`ultimaRevisao` models the stored date string by its parse result (header
note); `aura` is the stored urgency-tier string read by the selector. -/
structure Fragmento where
  id : String
  tema : String
  temaSlug : String
  ultimaRevisao : Option ℤ
  ecoInicial : JSVal
  ecoFinal : JSVal
  ecoInicialRaw : JSVal
  ecoFinalRaw : JSVal
  confianca : String
  ciclos : ℕ
  historico : List Ciclo
  aura : String
deriving DecidableEq

/-- Accent fold realising `normalize("NFD").replace(/[̀-ͯ]/g, "")`
on the precomposed Latin letters used by the app (Portuguese diacritics);
other characters decompose to themselves. -/
def dobrarAcento (c : Char) : Char :=
  match c with
  | 'á' | 'à' | 'â' | 'ã' | 'ä' => 'a'
  | 'é' | 'è' | 'ê' | 'ë' => 'e'
  | 'í' | 'ì' | 'î' | 'ï' => 'i'
  | 'ó' | 'ò' | 'ô' | 'õ' | 'ö' => 'o'
  | 'ú' | 'ù' | 'û' | 'ü' => 'u'
  | 'ç' => 'c'
  | 'Á' | 'À' | 'Â' | 'Ã' | 'Ä' => 'A'
  | 'É' | 'È' | 'Ê' | 'Ë' => 'E'
  | 'Í' | 'Ì' | 'Î' | 'Ï' => 'I'
  | 'Ó' | 'Ò' | 'Ô' | 'Õ' | 'Ö' => 'O'
  | 'Ú' | 'Ù' | 'Û' | 'Ü' => 'U'
  | 'Ç' => 'C'
  | _ => c

/-- ASCII lowercase on a character list, as `String.prototype.toLowerCase`
restricted to the character ranges exercised here (non-ASCII letters are
already lowercase in every label in play). -/
def toLowerJS (cs : List Char) : List Char :=
  cs.map Char.toLower

/-- `normalizarTexto` (utils.js): NFD-decompose, drop combining marks, trim,
lowercase. -/
def normalizarTexto (texto : String) : String :=
  ⟨toLowerJS (trimJS (texto.toList.map dobrarAcento))⟩

/-- Inner loop body of `calcularTotalQuestoes`: one history cycle adds the
parsed denominators of its own `ecoInicial` and `ecoFinal` fields. -/
def passoCicloQuestoes (t : ℕ) (ciclo : Ciclo) : ℕ :=
  t + extrairTotalQuestoes ciclo.ecoInicial + extrairTotalQuestoes ciclo.ecoFinal

/-- Outer loop body of `calcularTotalQuestoes`: one fragment adds the parsed
denominators of `ecoInicialRaw`/`ecoFinalRaw` and then folds its history. -/
def passoFragmentoQuestoes (total : ℕ) (fragmento : Fragmento) : ℕ :=
  fragmento.historico.foldl passoCicloQuestoes
    (total + extrairTotalQuestoes fragmento.ecoInicialRaw
      + extrairTotalQuestoes fragmento.ecoFinalRaw)

/-- `calcularTotalQuestoes` (utils.js): the running total accumulates the
parsed denominators of `ecoInicialRaw`/`ecoFinalRaw` of each fragment and of
`ecoInicial`/`ecoFinal` of each of its history cycles. -/
def calcularTotalQuestoes (data : List Fragmento) : ℕ :=
  data.foldl passoFragmentoQuestoes 0

/-- Contribution of one `ecoFinalRaw` field to `calcularEcoDaPerformance`:
`(acertos, questoes)` of the first fraction match when the field is a
non-empty (truthy) string, `(0, 0)` otherwise.  A truthy non-string value
would throw a `TypeError` (`.match` of a number) in JavaScript; that case is
not modelled and no theorem below evaluates it — every raw field in play is
a string or the snapshot's absent (`vundef`, falsy) field. -/
def ecoMatchContrib (v : JSVal) : ℕ × ℕ :=
  match v with
  | .vstr s =>
    if s = "" then (0, 0)
    else
      match findFrac s.toList with
      | some (a, t) => (a, t)
      | none => (0, 0)
  | _ => (0, 0)

/-- Inner loop body of `calcularEcoDaPerformance`: one history cycle pools
the `(acertos, questoes)` pair of its `ecoFinalRaw` field. -/
def passoCicloEco (q : ℕ × ℕ) (ciclo : Ciclo) : ℕ × ℕ :=
  let n := ecoMatchContrib ciclo.ecoFinalRaw
  (q.1 + n.1, q.2 + n.2)

/-- Outer loop body of `calcularEcoDaPerformance`: one fragment pools its
own `ecoFinalRaw` pair and then folds its history. -/
def passoFragmentoEco (p : ℕ × ℕ) (fragmento : Fragmento) : ℕ × ℕ :=
  let m := ecoMatchContrib fragmento.ecoFinalRaw
  fragmento.historico.foldl passoCicloEco (p.1 + m.1, p.2 + m.2)

/-- `calcularEcoDaPerformance` (utils.js): pool numerators and denominators
of every fragment's `ecoFinalRaw` and of every history cycle's `ecoFinalRaw`,
then return `Math.round(100 * totalAcertos/totalQuestoes)` (`0` when the
denominator total is `0`). -/
def calcularEcoDaPerformance (data : List Fragmento) : ℤ :=
  let acc := data.foldl passoFragmentoEco (0, 0)
  if acc.2 = 0 then 0 else jsRound ((acc.1 : ℚ) / (acc.2 : ℚ) * 100)

/-- Performance term of `calcularAura` (fragmentos.js) without the regression
penalty: the weighted percentage `0.7 * ecoInicial + 0.3 * ecoFinal` scores
`+3` below 50, `+2` below 80, else `+1`. -/
def pontosBaseDesempenho (item : Fragmento) : ℕ :=
  let desempenho := pctNumber item.ecoInicial * 0.7 + pctNumber item.ecoFinal * 0.3
  if desempenho < 50 then 3 else if desempenho < 80 then 2 else 1

/-- Regression penalty of `calcularAura`: `+1` when `ecoFinal < ecoInicial`. -/
def penalidadeRegressao (item : Fragmento) : ℕ :=
  if pctNumber item.ecoFinal < pctNumber item.ecoInicial then 1 else 0

/-- `Math.floor((hoje - ultima) / 86400000)` where `ultima` is the parsed
last-revision date; `none` models the `NaN` produced by an invalid date
(`hoje - NaN`, `Math.floor(NaN)` propagate `NaN`).  `Int.fdiv` is the
floor of the exact real quotient. -/
def diffDiasDesde (hoje : ℤ) (ultima : Option ℤ) : Option ℤ :=
  ultima.map (fun t => Int.fdiv (hoje - t) 86400000)

/-- Recency term of `calcularAura`: `+3` from 14 days, `+2` from 7 days,
else `+1`.  When `diffDias` is `NaN` (`none`), both `>=` comparisons are
false and the `else` branch yields `+1`. -/
def pontosRecencia (diffDias : Option ℤ) : ℕ :=
  match diffDias with
  | some d => if d ≥ 14 then 3 else if d ≥ 7 then 2 else 1
  | none => 1

/-- Confidence term of `calcularAura`: the label lowercased, `"baixo"` → `+2`,
`"médio"` → `+1`, anything else → `+0`. -/
def pontosConfianca (confianca : String) : ℕ :=
  let c := toLowerJS confianca.toList
  if c = "baixo".toList then 2 else if c = "médio".toList then 1 else 0

/-- `calcularAura` (fragmentos.js): sum the three signal terms and classify:
`>= 7` → `"urgente"`, `>= 4` → `"instavel"`, else `"consolidada"`. -/
def calcularAura (item : Fragmento) (hoje : ℤ) : String :=
  let pontos := pontosBaseDesempenho item + penalidadeRegressao item
    + pontosRecencia (diffDiasDesde hoje item.ultimaRevisao)
    + pontosConfianca item.confianca
  if pontos ≥ 7 then "urgente" else if pontos ≥ 4 then "instavel" else "consolidada"

/-- The sort comparator `(a, b) => new Date(a.ultimaRevisao) - new Date(b.ultimaRevisao)`
as a "not after" test: `true` iff the comparator value is `≤ 0`.  When either
date is unparsable the subtraction is `NaN`, which `Array.prototype.sort`
treats as `0` (SortCompare), i.e. the two elements compare equal. -/
def dataCmpLe (a b : Fragmento) : Bool :=
  match a.ultimaRevisao, b.ultimaRevisao with
  | some x, some y => x ≤ y
  | _, _ => true

/-- Stable insertion of `a` into `l`: `a` goes in front of the first element
it is not after. -/
def insereData (a : Fragmento) : List Fragmento → List Fragmento
  | [] => [a]
  | b :: l => if dataCmpLe a b then a :: b :: l else b :: insereData a l

/-- Model of `Array.prototype.sort` with the date comparator, as a stable
insertion sort.  ES2019 `sort` is stable, and for a consistent comparator the
stable order is unique, so any stable sort is a faithful model there; every
theorem below evaluates the sort only on consistent instances (all dates
parsable, or a single unparsable date among two elements). -/
def ordenarPorData : List Fragmento → List Fragmento
  | [] => []
  | a :: l => insereData a (ordenarPorData l)

/-- The urgent pool `lista.filter(f => f.aura === 'urgente')`. -/
def urgentesDe (lista : List Fragmento) : List Fragmento :=
  lista.filter (fun f => f.aura == "urgente")

/-- The unstable pool `lista.filter(f => f.aura === 'instavel')`. -/
def instaveisDe (lista : List Fragmento) : List Fragmento :=
  lista.filter (fun f => f.aura == "instavel")

/-- The `restantes` array after the urgent pool and the unstable fill loop:
all urgent records followed by unstable ones up to the limit. -/
def restantesDe (lista : List Fragmento) (limite : ℕ) : List Fragmento :=
  urgentesDe lista ++ (instaveisDe lista).take (limite - (urgentesDe lista).length)

/-- `selecionarFragmentosUrgentesOuRecentes` (utils.js): fill with urgent
records, then unstable ones, then the remaining records sorted oldest-first,
never exceeding `limite`. -/
def selecionarFragmentosUrgentesOuRecentes
    (lista : List Fragmento) (limite : ℕ := 5) : List Fragmento :=
  let urgentes := urgentesDe lista
  if limite ≤ urgentes.length then urgentes.take limite
  else
    let restantes := restantesDe lista limite
    if restantes.length < limite then
      let outros := ordenarPorData (lista.filter (fun f => !restantes.contains f))
      restantes ++ outros.take (limite - restantes.length)
    else restantes

/-- `??` (nullish coalescing) with default `0`, as in the snapshot fields
`dadosAntigos.ecoInicial ?? 0`. -/
def nullish0 (v : JSVal) : JSVal :=
  match v with
  | .vundef => .vnum 0
  | .vnull => .vnum 0
  | w => w

/-- The history snapshot pushed by `salvarFragmentoNoFirestore`: the
pre-update `ultimaRevisao` (falling back to now when falsy), the derived
percentages `ecoInicial`/`ecoFinal` (not the raw strings), and the
confidence label.  The snapshot object has no `ecoFinalRaw` property
(`vundef`). -/
def fazSnapshot (antigo : Fragmento) (agora : ℤ) : Ciclo :=
  { data := match antigo.ultimaRevisao with
      | some t => some t
      | none => some agora
    ecoInicial := nullish0 antigo.ecoInicial
    ecoFinal := nullish0 antigo.ecoFinal
    ecoFinalRaw := .vundef
    confianca := antigo.confianca }

/-- The document `salvarFragmentoNoFirestore` targets: the first document
whose `temaSlug` equals the submission's normalized key, else the first
whose `tema` equals the submission's name exactly. -/
def alvoDe (state : List Fragmento) (novo : Fragmento) : Option Fragmento :=
  let slug := normalizarTexto novo.tema
  let porSlug := state.filter (fun f => f.temaSlug == slug)
  let encontrados :=
    if porSlug.isEmpty then state.filter (fun f => f.tema == novo.tema)
    else porSlug
  encontrados.head?

/-- `salvarFragmentoNoFirestore` (database.js) as a pure transition on the
stored collection.  On a match: push the pre-update snapshot, overwrite the
document with the submission's fields, `ciclos := historico.length`,
`ultimaRevisao := now` (`updateDoc` leaves the absent `aura` untouched).
Otherwise create a new document with empty history, `ciclos = 0` and the
generated id `freshId`. -/
def salvarFragmentoNoFirestore
    (novo : Fragmento) (agora : ℤ) (freshId : String)
    (state : List Fragmento) : List Fragmento :=
  let slug := normalizarTexto novo.tema
  match alvoDe state novo with
  | some alvo =>
    let hist := alvo.historico ++ [fazSnapshot alvo agora]
    state.map (fun f =>
      if f.id == alvo.id then
        { novo with
          id := alvo.id
          temaSlug := slug
          historico := hist
          ciclos := hist.length
          ultimaRevisao := some agora
          aura := f.aura }
      else f)
  | none =>
    state ++ [{ novo with
      id := freshId
      temaSlug := slug
      historico := []
      ciclos := 0
      ultimaRevisao := some agora }]

/-- `excluirRevisaoDoCiclo` (database.js) as a pure transition: find the
fragment by id; when `historico[cicloIndex]` is absent (index out of range)
return `null` (`none`) before anything is touched; otherwise, after the
user confirms, remove the snapshot at that position and set `ciclos` to the
new length.  `none` models the `return null` paths, in which no state is
modified. -/
def excluirRevisaoDoCiclo
    (id : String) (cicloIndex : ℤ) (fragmentosData : List Fragmento)
    (confirmado : Bool) : Option (List Fragmento) :=
  match fragmentosData.find? (fun f => f.id == id) with
  | none => none
  | some fragmento =>
    if 0 ≤ cicloIndex ∧ cicloIndex < (fragmento.historico.length : ℤ) then
      if confirmado then
        let hist := fragmento.historico.eraseIdx cicloIndex.toNat
        some (fragmentosData.map (fun f =>
          if f.id == id then { f with historico := hist, ciclos := hist.length }
          else f))
      else none
    else none

/-- Fold of a sequence of submissions through the ledger: each triple is
`(submission, now, generated id)`. -/
def submeterTodos (subs : List (Fragmento × ℤ × String))
    (state : List Fragmento) : List Fragmento :=
  subs.foldl (fun s x => salvarFragmentoNoFirestore x.1 x.2.1 x.2.2 s) state

/-- The invariant of §3 of the spec: every stored record's cycle count
equals the length of its snapshot list. -/
def invCiclos (state : List Fragmento) : Prop :=
  ∀ f ∈ state, f.ciclos = f.historico.length

/-- Total questions of one record, current raw strings plus each history
cycle's own fields — the per-record summand of `calcularTotalQuestoes`. -/
def totalQuestoesDe (f : Fragmento) : ℕ :=
  extrairTotalQuestoes f.ecoInicialRaw + extrairTotalQuestoes f.ecoFinalRaw
    + (f.historico.map
        (fun c => extrairTotalQuestoes c.ecoInicial + extrairTotalQuestoes c.ecoFinal)).sum

/-- Modelled from the spec: `clampPercent` as claim C8 words it — strip a
*trailing* `"%"` only (the code's `String.replace('%','')` removes the first
occurrence anywhere), then coerce and clamp. -/
def clampPercentSpecTrailing (v : JSVal) : ℚ :=
  match v with
  | .vundef => 0
  | .vnull => 0
  | .vnan => 0
  | .vinf => 0
  | .vnum q => max 0 (min 100 q)
  | .vstr s =>
    let cs := s.toList
    let cs' := if cs.getLast? = some '%' then cs.dropLast else cs
    match jsStringToNumberL (trimJS cs') with
    | .vnum q => max 0 (min 100 q)
    | _ => 0

/-- Modelled from the spec: §3 says a review-cycle snapshot captures "both
raw result strings"; the coded ledger stores only the derived percentages.
This is the snapshot the spec describes, additionally carrying the
pre-update raw after-study string. -/
def fazSnapshotEspec (antigo : Fragmento) (agora : ℤ) : Ciclo :=
  { fazSnapshot antigo agora with ecoFinalRaw := antigo.ecoFinalRaw }

/-- Modelled from the spec: the ledger upsert as §4.2 describes it, i.e.
`salvarFragmentoNoFirestore` but pushing the spec's snapshot (with the raw
after-study string) instead of the coded one. -/
def salvarSegundoEspec
    (novo : Fragmento) (agora : ℤ) (freshId : String)
    (state : List Fragmento) : List Fragmento :=
  let slug := normalizarTexto novo.tema
  match alvoDe state novo with
  | some alvo =>
    let hist := alvo.historico ++ [fazSnapshotEspec alvo agora]
    state.map (fun f =>
      if f.id == alvo.id then
        { novo with
          id := alvo.id
          temaSlug := slug
          historico := hist
          ciclos := hist.length
          ultimaRevisao := some agora
          aura := f.aura }
      else f)
  | none =>
    state ++ [{ novo with
      id := freshId
      temaSlug := slug
      historico := []
      ciclos := 0
      ultimaRevisao := some agora }]

/-! ### Concrete records used by counterexamples and witnesses -/

/-- Claim C1's record: before = 50 %, after = 80 %, confidence `"Baixa"`,
last revision at epoch `0` (20 days before the `now` used with it). -/
def fragClaim1 : Fragmento where
  id := "c1"
  tema := "Tema Um"
  temaSlug := "tema um"
  ultimaRevisao := some 0
  ecoInicial := .vnum 50
  ecoFinal := .vnum 80
  ecoInicialRaw := .vstr "5/10"
  ecoFinalRaw := .vstr "8/10"
  confianca := "Baixa"
  ciclos := 0
  historico := []
  aura := ""

/-- Claim C1's record with the label the classifier actually recognizes. -/
def fragClaim1Baixo : Fragmento :=
  { fragClaim1 with confianca := "Baixo" }

/-- Submission used by claim C2's witness. -/
def fragClaim2 : Fragmento where
  id := "pre"
  tema := "Memória"
  temaSlug := ""
  ultimaRevisao := some 0
  ecoInicial := .vnum 60
  ecoFinal := .vnum 80
  ecoInicialRaw := .vstr "6/10"
  ecoFinalRaw := .vstr "8/10"
  confianca := "Média"
  ciclos := 0
  historico := []
  aura := ""

/-- Claim C3's pre-existing stored record: after-study result 7/10. -/
def fragClaim3Antigo : Fragmento where
  id := "c3"
  tema := "Tema Tres"
  temaSlug := "tema tres"
  ultimaRevisao := some 1000
  ecoInicial := .vnum 50
  ecoFinal := .vnum 70
  ecoInicialRaw := .vstr "5/10"
  ecoFinalRaw := .vstr "7/10"
  confianca := "Alta"
  ciclos := 0
  historico := []
  aura := ""

/-- Claim C3's re-submission of the same topic: after-study result 9/10. -/
def fragClaim3Novo : Fragmento :=
  { fragClaim3Antigo with
    id := "pre"
    ecoFinal := .vnum 90
    ecoFinalRaw := .vstr "9/10" }

/-- Urgent records for claim C4's witness. -/
def fragUrgenteA : Fragmento :=
  { fragClaim1 with id := "u1", aura := "urgente" }

/-- Second urgent record for claim C4's witness. -/
def fragUrgenteB : Fragmento :=
  { fragClaim1 with id := "u2", aura := "urgente" }

/-- Claim C5's record with a parsable last-revision date (the later one). -/
def fragComData : Fragmento :=
  { fragClaim1 with id := "com", ultimaRevisao := some 100, aura := "consolidada" }

/-- Claim C5's record with a missing/unparsable last-revision date. -/
def fragSemData : Fragmento :=
  { fragClaim1 with id := "sem", ultimaRevisao := none, aura := "consolidada" }

/-- Records with parsable dates for claim C5's witness, given out of date
order. -/
def fragData50 : Fragmento :=
  { fragClaim1 with id := "d50", ultimaRevisao := some 50, aura := "consolidada" }

/-- Companion record (older date) for claim C5's witness. -/
def fragData20 : Fragmento :=
  { fragClaim1 with id := "d20", ultimaRevisao := some 20, aura := "consolidada" }

/-- Claim C6's history snapshot holding raw strings 2/5 and 3/5. -/
def cicloClaim6 : Ciclo where
  data := some 0
  ecoInicial := .vstr "2/5"
  ecoFinal := .vstr "3/5"
  ecoFinalRaw := .vundef
  confianca := ""

/-- Claim C6's record: before 3/10, after 7/10, one history snapshot. -/
def fragClaim6 : Fragmento :=
  { fragClaim1 with
    id := "c6"
    ecoInicialRaw := .vstr "3/10"
    ecoFinalRaw := .vstr "7/10"
    historico := [cicloClaim6] }

/-- Claim C7's record: the last-revision date is missing/unparsable. -/
def fragClaim7 : Fragmento :=
  { fragClaim1 with id := "c7", ultimaRevisao := none, confianca := "Baixo" }

/-- Claim C9's stored record with a two-snapshot history. -/
def fragClaim9 : Fragmento :=
  { fragClaim1 with
    id := "c9"
    historico := [cicloClaim6, { cicloClaim6 with confianca := "x" }]
    ciclos := 2 }

/-- Claim C9's stored collection. -/
def stClaim9 : List Fragmento := [fragClaim9]

/-- Stored record with one history cycle for claim C2's witness. -/
def fragClaim2Hist : Fragmento :=
  { fragClaim2 with id := "m", historico := [cicloClaim6], ciclos := 1 }

/-- The submission sequence (three submissions of the same topic) for claim
C2's witness. -/
def c2subs : List (Fragmento × ℤ × String) :=
  [(fragClaim2, 10, "a"), (fragClaim2, 20, "b"), (fragClaim2, 30, "c")]

/-- The "records sorted oldest-first" relation of the selector's third
phase, stated on the parsed dates: whenever both dates are parsable, the
left one is not after the right one. -/
def ordemData (a b : Fragmento) : Prop :=
  ∀ x y, a.ultimaRevisao = some x → b.ultimaRevisao = some y → x ≤ y

/-! ## Helper lemmas -/

/-- Folding the history-cycle step from any accumulator adds the mapped sum. -/
theorem foldl_passoCicloQuestoes (l : List Ciclo) (n : ℕ) :
    l.foldl passoCicloQuestoes n
      = n + (l.map
          (fun c => extrairTotalQuestoes c.ecoInicial + extrairTotalQuestoes c.ecoFinal)).sum := by
  induction l generalizing n with
  | nil => simp
  | cons c l ih =>
    simp only [List.foldl_cons, List.map_cons, List.sum_cons, ih, passoCicloQuestoes]
    omega

/-- One fragment step adds that fragment's `totalQuestoesDe`. -/
theorem passoFragmentoQuestoes_eq (n : ℕ) (f : Fragmento) :
    passoFragmentoQuestoes n f = n + totalQuestoesDe f := by
  simp only [passoFragmentoQuestoes, foldl_passoCicloQuestoes, totalQuestoesDe]
  omega

/-- Folding the fragment step from any accumulator adds the mapped sum. -/
theorem foldl_passoFragmentoQuestoes (l : List Fragmento) (n : ℕ) :
    l.foldl passoFragmentoQuestoes n = n + (l.map totalQuestoesDe).sum := by
  induction l generalizing n with
  | nil => simp
  | cons f l ih =>
    simp only [List.foldl_cons, List.map_cons, List.sum_cons, ih, passoFragmentoQuestoes_eq]
    omega

/-- `Math.round` characterised by its bracketing inequalities. -/
theorem jsRound_eq_of (q : ℚ) (z : ℤ) (h1 : (z : ℚ) ≤ q + 1 / 2)
    (h2 : q + 1 / 2 < z + 1) : jsRound q = z := by
  unfold jsRound
  exact Int.floor_eq_iff.mpr ⟨h1, h2⟩

/-! ## Claims -/

/-- Claim C6 — `calcularTotalQuestoes` sums, over every record, the parsed
denominators of its before/after raw strings plus the same for every history
snapshot's own fields; on the record with `"3/10"`, `"7/10"` and one snapshot
holding `"2/5"`/`"3/5"` it yields 30. -/
theorem claim6_total_questoes :
    (∀ data : List Fragmento,
      calcularTotalQuestoes data = (data.map totalQuestoesDe).sum)
    ∧ calcularTotalQuestoes [fragClaim6] = 30 := by
  refine ⟨fun data => ?_, by decide⟩
  simpa using foldl_passoFragmentoQuestoes data 0

/-- Claim C10 — `converterParaPorcentagem` does not clamp: `"15/10"` yields
150 (> 100), and the fraction pattern matches anywhere inside the string
(`"x15/10y"` also yields 150). -/
theorem claim10_sem_clamp :
    converterParaPorcentagem (.vstr "15/10") = .vnum 150
    ∧ (100 : ℚ) < 150
    ∧ converterParaPorcentagem (.vstr "x15/10y") = .vnum 150 := by
  have hf : findFrac ['1', '5', '/', '1', '0'] = some (15, 10) := by decide
  have hf' : findFrac ['x', '1', '5', '/', '1', '0', 'y'] = some (15, 10) := by decide
  have hr : jsRound ((15 : ℚ) / (10 : ℚ) * 100) = 150 :=
    jsRound_eq_of _ _ (by norm_num) (by norm_num)
  refine ⟨?_, by norm_num, ?_⟩ <;>
    simp [converterParaPorcentagem, hf, hf', hr]

/-- Claim C8 counterexample — the claim says a *trailing* `"%"` is stripped;
the code strips the *first* occurrence anywhere.  On `"%50"` the two differ:
the code returns 50, the claim's reading returns 0. -/
theorem claim8_counterexample :
    pctNumber (.vstr "%50") = 50
    ∧ clampPercentSpecTrailing (.vstr "%50") = 0
    ∧ pctNumber (.vstr "%50") ≠ clampPercentSpecTrailing (.vstr "%50") :=
  ⟨by decide, by decide, by decide⟩

/-- Claim C8 (amended) — `clampPercent` removes the *first* occurrence of
`"%"` anywhere in the string, coerces the remainder, and always returns a
value within `[0, 100]`; every input whose coercion is non-finite returns
exactly 0 (concretely, both `"50%"` and `"%50"` clamp to 50). -/
theorem claim8_amended :
    (∀ v, 0 ≤ pctNumber v ∧ pctNumber v ≤ 100)
    ∧ (∀ v, naoFinito (pctParsed v) = true → pctNumber v = 0)
    ∧ pctNumber (.vstr "50%") = 50
    ∧ pctNumber (.vstr "%50") = 50 := by
  have hb : ∀ q : ℚ, 0 ≤ max 0 (min 100 q) ∧ max 0 (min 100 q) ≤ 100 :=
    fun q => ⟨le_max_left 0 _, max_le (by norm_num) (min_le_left _ _)⟩
  refine ⟨fun v => ?_, fun v h => ?_, by decide, by decide⟩
  · cases v with
    | vundef => norm_num [pctNumber]
    | vnull => norm_num [pctNumber]
    | vnan => norm_num [pctNumber, pctParsed]
    | vinf => norm_num [pctNumber, pctParsed]
    | vnum q => simp only [pctNumber, pctParsed]; exact hb q
    | vstr s =>
      cases k : pctParsed (JSVal.vstr s) with
      | vnum q => simp only [pctNumber, k]; exact hb q
      | vundef => simp [pctNumber, k]
      | vnull => simp [pctNumber, k]
      | vnan => simp [pctNumber, k]
      | vinf => simp [pctNumber, k]
      | vstr t => simp [pctNumber, k]
  · cases v with
    | vundef => rfl
    | vnull => rfl
    | vnan => rfl
    | vinf => rfl
    | vnum q => simp [pctParsed, naoFinito] at h
    | vstr s =>
      cases k : pctParsed (JSVal.vstr s) with
      | vnum q => rw [k] at h; simp [naoFinito] at h
      | vundef => simp [pctNumber, k]
      | vnull => simp [pctNumber, k]
      | vnan => simp [pctNumber, k]
      | vinf => simp [pctNumber, k]
      | vstr t => simp [pctNumber, k]

/-- Claim C8 witness — the amended theorem applied at `vnum 200` and at the
non-finitely-coercing string `"abc"`. -/
theorem claim8_witness :
    (0 ≤ pctNumber (JSVal.vnum 200) ∧ pctNumber (JSVal.vnum 200) ≤ 100)
    ∧ pctNumber (JSVal.vstr "abc") = 0 :=
  ⟨claim8_amended.1 (JSVal.vnum 200),
   claim8_amended.2.1 (JSVal.vstr "abc") (by decide)⟩

/-- Claim C1 counterexample — on the claim's record (before 50 %, after 80 %,
confidence `"Baixa"`, last revision 20 days before now) the classifier
returns `"instavel"`, not `"urgente"`: `"baixa"` is not the string
`"baixo"` the code compares against, so the confidence term is +0 and the
total is 5. -/
theorem claim1_counterexample :
    fragClaim1.confianca = "Baixa"
    ∧ calcularAura fragClaim1 1728000000 = "instavel"
    ∧ calcularAura fragClaim1 1728000000 ≠ "urgente" := by
  have h1 : pctNumber fragClaim1.ecoInicial = 50 := by decide
  have h2 : pctNumber fragClaim1.ecoFinal = 80 := by decide
  have hbase : pontosBaseDesempenho fragClaim1 = 2 := by
    simp only [pontosBaseDesempenho, h1, h2]
    norm_num
  have hpen : penalidadeRegressao fragClaim1 = 0 := by
    simp only [penalidadeRegressao, h1, h2]
    norm_num
  have hrec : pontosRecencia (diffDiasDesde 1728000000 fragClaim1.ultimaRevisao) = 3 := by
    decide
  have hconf : pontosConfianca fragClaim1.confianca = 0 := by decide
  have ha : calcularAura fragClaim1 1728000000 = "instavel" := by
    simp only [calcularAura, hbase, hpen, hrec, hconf]
    decide
  exact ⟨rfl, ha, by rw [ha]; decide⟩

/-- Claim C1 (amended) — the claim's scenario holds once the confidence label
is one the classifier recognizes (`"Baixo"`, normalizing to `"baixo"`):
for every record with before 50 %, after 80 %, that label and a
last-revision instant 20 days before now, the terms are +2 (performance),
+0 (regression), +3 (recency), +2 (confidence), total 7 → `"urgente"`. -/
theorem claim1_amended :
    ∀ (agora t : ℤ) (fr : Fragmento),
      agora = t + 20 * 86400000 →
      fr.ecoInicial = .vnum 50 → fr.ecoFinal = .vnum 80 →
      fr.confianca = "Baixo" → fr.ultimaRevisao = some t →
      pontosBaseDesempenho fr = 2
      ∧ penalidadeRegressao fr = 0
      ∧ pontosRecencia (diffDiasDesde agora fr.ultimaRevisao) = 3
      ∧ pontosConfianca fr.confianca = 2
      ∧ calcularAura fr agora = "urgente" := by
  intro agora t fr h1 h2 h3 h4 h5
  have e50 : pctNumber (JSVal.vnum 50) = 50 := by decide
  have e80 : pctNumber (JSVal.vnum 80) = 80 := by decide
  have hbase : pontosBaseDesempenho fr = 2 := by
    simp only [pontosBaseDesempenho, h2, h3, e50, e80]
    norm_num
  have hpen : penalidadeRegressao fr = 0 := by
    simp only [penalidadeRegressao, h2, h3, e50, e80]
    norm_num
  have harg : diffDiasDesde agora fr.ultimaRevisao = some 20 := by
    rw [h5, h1]
    have ht : t + 20 * 86400000 - t = (1728000000 : ℤ) := by ring
    simp only [diffDiasDesde, Option.map_some', ht]
    decide
  have hrec : pontosRecencia (diffDiasDesde agora fr.ultimaRevisao) = 3 := by
    rw [harg]; decide
  have hconf : pontosConfianca fr.confianca = 2 := by rw [h4]; decide
  refine ⟨hbase, hpen, hrec, hconf, ?_⟩
  simp only [calcularAura, hbase, hpen, hrec, hconf]
  decide

/-- Claim C1 witness — the amended theorem applied to the concrete record
with label `"Baixo"` at `now = 20` days past the epoch. -/
theorem claim1_witness :
    pontosBaseDesempenho fragClaim1Baixo = 2
    ∧ penalidadeRegressao fragClaim1Baixo = 0
    ∧ pontosRecencia (diffDiasDesde 1728000000 fragClaim1Baixo.ultimaRevisao) = 3
    ∧ pontosConfianca fragClaim1Baixo.confianca = 2
    ∧ calcularAura fragClaim1Baixo 1728000000 = "urgente" :=
  claim1_amended 1728000000 0 fragClaim1Baixo (by norm_num) rfl rfl rfl rfl

/-- Claim C7 — when the last-revision date is missing/unparsable the day
difference is `NaN` (`none`), both `>=` comparisons are false, the recency
term is the lowest (+1, not +3), and the classification is computed with
that +1. -/
theorem claim7_data_invalida :
    ∀ (item : Fragmento) (hoje : ℤ), item.ultimaRevisao = none →
      diffDiasDesde hoje item.ultimaRevisao = none
      ∧ pontosRecencia (diffDiasDesde hoje item.ultimaRevisao) = 1
      ∧ pontosRecencia (diffDiasDesde hoje item.ultimaRevisao) ≠ 3
      ∧ calcularAura item hoje =
          (if pontosBaseDesempenho item + penalidadeRegressao item + 1
              + pontosConfianca item.confianca ≥ 7 then "urgente"
           else if pontosBaseDesempenho item + penalidadeRegressao item + 1
              + pontosConfianca item.confianca ≥ 4 then "instavel"
           else "consolidada") := by
  intro item hoje h
  rw [h]
  refine ⟨rfl, rfl, ?_, ?_⟩
  · simp [diffDiasDesde, pontosRecencia]
  · simp only [calcularAura, h, diffDiasDesde, Option.map_none', pontosRecencia]

/-- Claim C7 witness — the theorem applied to the concrete record whose
last-revision date is unparsable. -/
theorem claim7_witness :
    diffDiasDesde 0 fragClaim7.ultimaRevisao = none
    ∧ pontosRecencia (diffDiasDesde 0 fragClaim7.ultimaRevisao) = 1
    ∧ pontosRecencia (diffDiasDesde 0 fragClaim7.ultimaRevisao) ≠ 3
    ∧ calcularAura fragClaim7 0 =
        (if pontosBaseDesempenho fragClaim7 + penalidadeRegressao fragClaim7 + 1
            + pontosConfianca fragClaim7.confianca ≥ 7 then "urgente"
         else if pontosBaseDesempenho fragClaim7 + penalidadeRegressao fragClaim7 + 1
            + pontosConfianca fragClaim7.confianca ≥ 4 then "instavel"
         else "consolidada") :=
  claim7_data_invalida fragClaim7 0 rfl

/-- Claim C3 (code bug) — the pooled after-study percentage ignores
ledger-produced history snapshots: the ledger stores no `ecoFinalRaw` in the
snapshot (only the derived percentage), and the aggregator reads exactly
`ecoFinalRaw` from each cycle.  After re-submitting the topic (old 7/10, new
9/10) the code pools only 9/10 → 90, whereas with the spec's snapshot (raw
strings kept, `salvarSegundoEspec`) it pools (7+9)/(10+10) → 80. -/
theorem claim3_historico_ignorado :
    calcularEcoDaPerformance
        (salvarFragmentoNoFirestore fragClaim3Novo 2000 "x" [fragClaim3Antigo]) = 90
    ∧ (salvarFragmentoNoFirestore fragClaim3Novo 2000 "x" [fragClaim3Antigo]).map
        (fun f => f.historico.map (fun c => c.ecoFinalRaw)) = [[JSVal.vundef]]
    ∧ calcularEcoDaPerformance
        (salvarSegundoEspec fragClaim3Novo 2000 "x" [fragClaim3Antigo]) = 80
    ∧ (90 : ℤ) ≠ 80 := by
  have hacc : (salvarFragmentoNoFirestore fragClaim3Novo 2000 "x"
      [fragClaim3Antigo]).foldl passoFragmentoEco (0, 0) = (9, 10) := by decide
  have hacc' : (salvarSegundoEspec fragClaim3Novo 2000 "x"
      [fragClaim3Antigo]).foldl passoFragmentoEco (0, 0) = (16, 20) := by decide
  have h90 : jsRound (((9 : ℕ) : ℚ) / ((10 : ℕ) : ℚ) * 100) = 90 :=
    jsRound_eq_of _ _ (by push_cast; norm_num) (by push_cast; norm_num)
  have h80 : jsRound (((16 : ℕ) : ℚ) / ((20 : ℕ) : ℚ) * 100) = 80 :=
    jsRound_eq_of _ _ (by push_cast; norm_num) (by push_cast; norm_num)
  refine ⟨?_, by decide, ?_, by decide⟩
  · simp only [calcularEcoDaPerformance, hacc]
    norm_num
    exact jsRound_eq_of _ _ (by norm_num) (by norm_num)
  · simp only [calcularEcoDaPerformance, hacc']
    norm_num
    exact jsRound_eq_of _ _ (by norm_num) (by norm_num)

/-- Claim C9 — `excluirRevisaoDoCiclo` with an in-range index removes exactly
the snapshot at that position (later snapshots shift down by one) and sets
the cycle count to the shortened length; with an out-of-range index it
returns `null` before touching anything — a guarded no-op, not an error. -/
theorem claim9_exclusao :
    ∀ (st : List Fragmento) (idt : String) (idx : ℤ) (frag : Fragmento) (ok : Bool),
      st.find? (fun f => f.id == idt) = some frag →
      ((0 ≤ idx ∧ idx < (frag.historico.length : ℤ)) →
        excluirRevisaoDoCiclo idt idx st true
          = some (st.map (fun f =>
              if f.id == idt then
                { f with
                  historico := frag.historico.take idx.toNat
                    ++ frag.historico.drop (idx.toNat + 1)
                  ciclos := frag.historico.length - 1 }
              else f)))
      ∧ (¬(0 ≤ idx ∧ idx < (frag.historico.length : ℤ)) →
          excluirRevisaoDoCiclo idt idx st ok = none) := by
  intro st idt idx frag ok hfind
  constructor
  · intro hrange
    have hlt : idx.toNat < frag.historico.length := by omega
    have h1 : frag.historico.eraseIdx idx.toNat
        = frag.historico.take idx.toNat ++ frag.historico.drop (idx.toNat + 1) :=
      List.eraseIdx_eq_take_drop_succ _ _
    have h2 : (frag.historico.eraseIdx idx.toNat).length
        = frag.historico.length - 1 := by
      simp [List.length_eraseIdx, hlt]
    have h3 : (frag.historico.take idx.toNat
        ++ frag.historico.drop (idx.toNat + 1)).length
        = frag.historico.length - 1 := by rw [← h1]; exact h2
    simp only [excluirRevisaoDoCiclo, hfind]
    rw [if_pos hrange, if_pos trivial]
    congr 1
    apply List.map_congr_left
    intro a _
    by_cases hid : (a.id == idt) = true
    · simp only [hid, if_pos, h1, h3]
    · simp only [hid]
      rfl
  · intro hrange
    simp only [excluirRevisaoDoCiclo, hfind]
    rw [if_neg hrange]

/-- Claim C9 witness — the theorem applied to the concrete one-record store:
deleting index 1 of a two-snapshot history, and the out-of-range index 5. -/
theorem claim9_witness :
    (excluirRevisaoDoCiclo "c9" 1 stClaim9 true
      = some (stClaim9.map (fun f =>
          if f.id == "c9" then
            { f with
              historico := fragClaim9.historico.take (1 : ℤ).toNat
                ++ fragClaim9.historico.drop ((1 : ℤ).toNat + 1)
              ciclos := fragClaim9.historico.length - 1 }
          else f)))
    ∧ excluirRevisaoDoCiclo "c9" 5 stClaim9 false = none :=
  ⟨(claim9_exclusao stClaim9 "c9" 1 fragClaim9 true (by decide)).1 (by decide),
   (claim9_exclusao stClaim9 "c9" 5 fragClaim9 false (by decide)).2 (by decide)⟩

/-- Stable insertion only permutes: `insereData a l` is `a :: l` reordered. -/
theorem insereData_perm (a : Fragmento) (l : List Fragmento) :
    List.Perm (insereData a l) (a :: l) := by
  induction l with
  | nil => exact List.Perm.refl _
  | cons b l ih =>
    simp only [insereData]
    by_cases h : dataCmpLe a b = true
    · rw [if_pos h]
    · rw [if_neg h]
      exact (List.Perm.cons b ih).trans (List.Perm.swap a b l)

/-- The date sort only permutes its input. -/
theorem ordenarPorData_perm (l : List Fragmento) :
    List.Perm (ordenarPorData l) l := by
  induction l with
  | nil => exact List.Perm.refl _
  | cons a l ih =>
    exact (insereData_perm a (ordenarPorData l)).trans (List.Perm.cons a ih)

/-- Inserting a record with a parsable date into a sorted list of records
with parsable dates keeps the list sorted (`ordemData`-pairwise). -/
theorem insereData_pairwise (a : Fragmento) (l : List Fragmento)
    (ha : a.ultimaRevisao.isSome = true)
    (hl : ∀ f ∈ l, f.ultimaRevisao.isSome = true)
    (hp : l.Pairwise ordemData) :
    (insereData a l).Pairwise ordemData := by
  induction l with
  | nil => simp [insereData, ordemData]
  | cons b l ih =>
    obtain ⟨x, hx⟩ := Option.isSome_iff_exists.mp ha
    obtain ⟨y, hy⟩ := Option.isSome_iff_exists.mp (hl b (List.mem_cons_self b l))
    rw [List.pairwise_cons] at hp
    obtain ⟨hbl, hpl⟩ := hp
    simp only [insereData]
    by_cases h : dataCmpLe a b = true
    · rw [if_pos h]
      have hxy : x ≤ y := by simpa [dataCmpLe, hx, hy] using h
      refine List.Pairwise.cons ?_ (List.Pairwise.cons hbl hpl)
      intro c hc
      rcases List.mem_cons.mp hc with rfl | hcl
      · intro x' y' hx' hy'
        rw [hx] at hx'
        rw [hy] at hy'
        cases hx'
        cases hy'
        exact hxy
      · obtain ⟨z, hz⟩ := Option.isSome_iff_exists.mp (hl c (List.mem_cons_of_mem b hcl))
        have hyz : y ≤ z := hbl c hcl y z hy hz
        intro x' z' hx' hz'
        rw [hx] at hx'
        rw [hz] at hz'
        cases hx'
        cases hz'
        exact le_trans hxy hyz
    · rw [if_neg h]
      have hyx : y ≤ x := by
        simp [dataCmpLe, hx, hy] at h
        omega
      refine List.Pairwise.cons ?_
        (ih (fun f hf => hl f (List.mem_cons_of_mem b hf)) hpl)
      intro c hc
      have hc' : c = a ∨ c ∈ l := by
        simpa using (insereData_perm a l).mem_iff.mp hc
      rcases hc' with rfl | hcl
      · intro y' x' hy' hx'
        rw [hy] at hy'
        rw [hx] at hx'
        cases hy'
        cases hx'
        exact hyx
      · exact hbl c hcl

/-- The date sort produces an `ordemData`-sorted list whenever every input
date is parsable (on such inputs the JavaScript comparator is consistent,
so the stable result is the ascending one). -/
theorem ordenarPorData_pairwise (l : List Fragmento)
    (h : ∀ f ∈ l, f.ultimaRevisao.isSome = true) :
    (ordenarPorData l).Pairwise ordemData := by
  induction l with
  | nil => simp [ordenarPorData]
  | cons a l ih =>
    have hmem : ∀ f ∈ ordenarPorData l, f.ultimaRevisao.isSome = true :=
      fun f hf => h f (List.mem_cons_of_mem a ((ordenarPorData_perm l).mem_iff.mp hf))
    exact insereData_pairwise a (ordenarPorData l)
      (h a (List.mem_cons_self a l)) hmem
      (ih (fun f hf => h f (List.mem_cons_of_mem a hf)))

/-- Claim C4 — the selector returns at most `limite` records; on duplicate-free
input (distinct records) the selection is duplicate-free; and when the
urgent pool already reaches the limit the result is exactly the first
`limite` urgent records in their existing order. -/
theorem claim4_selecao :
    ∀ (lista : List Fragmento) (limite : ℕ),
      (selecionarFragmentosUrgentesOuRecentes lista limite).length ≤ limite
      ∧ (lista.Nodup → (selecionarFragmentosUrgentesOuRecentes lista limite).Nodup)
      ∧ (limite ≤ (urgentesDe lista).length →
          selecionarFragmentosUrgentesOuRecentes lista limite
            = (urgentesDe lista).take limite) := by
  intro lista limite
  refine ⟨?_, ?_, ?_⟩
  · simp only [selecionarFragmentosUrgentesOuRecentes]
    by_cases h1 : limite ≤ (urgentesDe lista).length
    · rw [if_pos h1]
      simp [List.length_take]
    · rw [if_neg h1]
      push_neg at h1
      by_cases h2 : (restantesDe lista limite).length < limite
      · rw [if_pos h2]
        simp only [List.length_append, List.length_take]
        omega
      · rw [if_neg h2]
        simp only [restantesDe, List.length_append, List.length_take]
        omega
  · intro hnd
    have hurgnd : (urgentesDe lista).Nodup := hnd.filter _
    have hinstnd : (instaveisDe lista).Nodup := hnd.filter _
    have hdisj : ∀ x, x ∈ urgentesDe lista → x ∈ instaveisDe lista → False := by
      intro x hxu hxi
      have h1 := (List.mem_filter.mp hxu).2
      have h2 := (List.mem_filter.mp hxi).2
      rw [beq_iff_eq] at h1 h2
      rw [h1] at h2
      exact absurd h2 (by decide)
    have hrest : (restantesDe lista limite).Nodup := by
      unfold restantesDe
      rw [List.nodup_append]
      exact ⟨hurgnd, hinstnd.sublist (List.take_sublist _ _),
        fun x hxu hxt => hdisj x hxu ((List.take_sublist _ _).subset hxt)⟩
    simp only [selecionarFragmentosUrgentesOuRecentes]
    by_cases h1 : limite ≤ (urgentesDe lista).length
    · rw [if_pos h1]
      exact hurgnd.sublist (List.take_sublist _ _)
    · rw [if_neg h1]
      by_cases h2 : (restantesDe lista limite).length < limite
      · rw [if_pos h2]
        rw [List.nodup_append]
        refine ⟨hrest, ?_, ?_⟩
        · have hfo : (lista.filter
              (fun f => !(restantesDe lista limite).contains f)).Nodup := hnd.filter _
          exact (((ordenarPorData_perm _).nodup_iff).mpr hfo).sublist
            (List.take_sublist _ _)
        · intro x hxr hxt
          have hxo := (List.take_sublist _ _).subset hxt
          have hxf := ((ordenarPorData_perm _).mem_iff).mp hxo
          have hcont := (List.mem_filter.mp hxf).2
          simp only [Bool.not_eq_true'] at hcont
          have hc : (restantesDe lista limite).contains x = true :=
            List.elem_iff.mpr hxr
          rw [hcont] at hc
          exact Bool.false_ne_true hc
      · rw [if_neg h2]
        exact hrest
  · intro h
    simp only [selecionarFragmentosUrgentesOuRecentes]
    rw [if_pos h]

/-- Claim C4 witness — the theorem applied to a two-urgent-record list with
limit 1. -/
theorem claim4_witness :
    (selecionarFragmentosUrgentesOuRecentes [fragUrgenteA, fragUrgenteB] 1).length ≤ 1
    ∧ (selecionarFragmentosUrgentesOuRecentes [fragUrgenteA, fragUrgenteB] 1).Nodup
    ∧ selecionarFragmentosUrgentesOuRecentes [fragUrgenteA, fragUrgenteB] 1
        = (urgentesDe [fragUrgenteA, fragUrgenteB]).take 1 :=
  ⟨(claim4_selecao [fragUrgenteA, fragUrgenteB] 1).1,
   (claim4_selecao [fragUrgenteA, fragUrgenteB] 1).2.1 (by decide),
   (claim4_selecao [fragUrgenteA, fragUrgenteB] 1).2.2 (by decide)⟩

/-- Claim C5 counterexample — a record with an unparsable last-revision date
does *not* sort before a parsable one: the comparator yields `NaN`, the sort
treats it as 0 (equal), and the stable sort keeps the original order, so the
selector returns `[fragComData, fragSemData]` with the dateless record
last, not first. -/
theorem claim5_counterexample :
    fragComData.ultimaRevisao = some 100
    ∧ fragSemData.ultimaRevisao = none
    ∧ selecionarFragmentosUrgentesOuRecentes [fragComData, fragSemData] 5
        = [fragComData, fragSemData] :=
  ⟨rfl, rfl, by decide⟩

/-- Claim C5 (amended) — the records appended after the urgent/unstable pools
are in ascending last-revision-date order whenever every date is parsable;
a record with a missing/unparsable date makes the comparator `NaN`, which
the sort treats as 0, i.e. such a record compares equal to every other
record (and stays in its stable position) instead of sorting first. -/
theorem claim5_amended :
    (∀ (lista : List Fragmento) (limite : ℕ),
      (∀ f ∈ lista, f.ultimaRevisao.isSome = true) →
      ((selecionarFragmentosUrgentesOuRecentes lista limite).drop
          (restantesDe lista limite).length).Pairwise ordemData)
    ∧ (∀ a b : Fragmento, a.ultimaRevisao = none →
        dataCmpLe a b = true ∧ dataCmpLe b a = true) := by
  constructor
  · intro lista limite hdates
    simp only [selecionarFragmentosUrgentesOuRecentes]
    by_cases h1 : limite ≤ (urgentesDe lista).length
    · rw [if_pos h1]
      have hlen : ((urgentesDe lista).take limite).length
          ≤ (restantesDe lista limite).length := by
        simp only [List.length_take, restantesDe, List.length_append]
        omega
      rw [List.drop_eq_nil_of_le hlen]
      exact List.Pairwise.nil
    · rw [if_neg h1]
      by_cases h2 : (restantesDe lista limite).length < limite
      · rw [if_pos h2]
        rw [List.drop_left]
        have hfil : ∀ f ∈ lista.filter
            (fun f => !(restantesDe lista limite).contains f),
            f.ultimaRevisao.isSome = true :=
          fun f hf => hdates f (List.mem_filter.mp hf).1
        exact (ordenarPorData_pairwise _ hfil).sublist (List.take_sublist _ _)
      · rw [if_neg h2]
        rw [List.drop_length]
        exact List.Pairwise.nil
  · intro a b h
    unfold dataCmpLe
    rw [h]
    cases b.ultimaRevisao <;> exact ⟨rfl, rfl⟩

/-- Claim C5 witness — the amended theorem applied to a concrete two-record
list given newest-first (dates 50 then 20), and the comparator fact at the
concrete dateless record. -/
theorem claim5_witness :
    ((selecionarFragmentosUrgentesOuRecentes [fragData50, fragData20] 5).drop
        (restantesDe [fragData50, fragData20] 5).length).Pairwise ordemData
    ∧ (dataCmpLe fragSemData fragComData = true
        ∧ dataCmpLe fragComData fragSemData = true) :=
  ⟨claim5_amended.1 [fragData50, fragData20] 5 (by decide),
   claim5_amended.2 fragSemData fragComData rfl⟩

/-- Upsert into an empty store creates a single fresh record with empty
history and cycle count 0. -/
theorem salvar_vazio (novo : Fragmento) (agora : ℤ) (freshId : String) :
    salvarFragmentoNoFirestore novo agora freshId []
      = [{ novo with
          id := freshId
          temaSlug := normalizarTexto novo.tema
          historico := []
          ciclos := 0
          ultimaRevisao := some agora }] := rfl

/-- Upsert into a one-record store whose record carries the submission's
normalized key: the record is overwritten, one snapshot is appended, and
the cycle count becomes the new history length. -/
theorem salvar_um (novo : Fragmento) (agora : ℤ) (freshId : String)
    (r : Fragmento) (h : r.temaSlug = normalizarTexto novo.tema) :
    salvarFragmentoNoFirestore novo agora freshId [r]
      = [{ novo with
          id := r.id
          temaSlug := normalizarTexto novo.tema
          historico := r.historico ++ [fazSnapshot r agora]
          ciclos := r.historico.length + 1
          ultimaRevisao := some agora
          aura := r.aura }] := by
  have hbeq : (r.temaSlug == normalizarTexto novo.tema) = true := beq_iff_eq.mpr h
  simp [salvarFragmentoNoFirestore, alvoDe, hbeq]

/-- Folding submissions that all normalize to the key of the single stored
record keeps a single record, growing its history by one per submission and
keeping the cycle count equal to the history length. -/
theorem submete_unico (subs : List (Fragmento × ℤ × String)) :
    ∀ (r : Fragmento) (slug : String),
      r.temaSlug = slug →
      (∀ x ∈ subs, normalizarTexto x.1.tema = slug) →
      r.ciclos = r.historico.length →
      ∃ r', submeterTodos subs [r] = [r']
        ∧ r'.temaSlug = slug
        ∧ r'.historico.length = r.historico.length + subs.length
        ∧ r'.ciclos = r'.historico.length := by
  induction subs with
  | nil =>
    intro r slug h1 _ h3
    exact ⟨r, rfl, h1, by simp, h3⟩
  | cons x subs ih =>
    intro r slug h1 h2 h3
    have hx : normalizarTexto x.1.tema = slug := h2 x (List.mem_cons_self _ _)
    have hr : r.temaSlug = normalizarTexto x.1.tema := by rw [h1, hx]
    have hunfold : submeterTodos (x :: subs) [r]
        = submeterTodos subs (salvarFragmentoNoFirestore x.1 x.2.1 x.2.2 [r]) := rfl
    rw [hunfold, salvar_um x.1 x.2.1 x.2.2 r hr]
    obtain ⟨r', h4, h5, h6, h7⟩ := ih
      { x.1 with
        id := r.id
        temaSlug := normalizarTexto x.1.tema
        historico := r.historico ++ [fazSnapshot r x.2.1]
        ciclos := r.historico.length + 1
        ultimaRevisao := some x.2.1
        aura := r.aura } slug (by simp [hx])
      (fun y hy => h2 y (List.mem_cons_of_mem _ hy)) (by simp)
    refine ⟨r', h4, h5, ?_, h7⟩
    rw [h6]
    simp
    omega

/-- Claim C2 — the cycle-count invariant: the upsert preserves
`ciclos = historico.length` on every stored record; a matching upsert
appends exactly one snapshot and sets the count to the new length; after N
sequential submissions of the same normalized key into an empty store there
is exactly one record, with history length N−1 and a matching count; and
cycle deletion preserves the invariant (the count becomes the shortened
length). -/
theorem claim2_ciclos :
    (∀ (novo : Fragmento) (agora : ℤ) (freshId : String) (state : List Fragmento),
      invCiclos state → invCiclos (salvarFragmentoNoFirestore novo agora freshId state))
    ∧ (∀ (novo : Fragmento) (agora : ℤ) (freshId : String) (state : List Fragmento)
        (alvo : Fragmento),
        alvoDe state novo = some alvo →
        ∀ f ∈ salvarFragmentoNoFirestore novo agora freshId state,
          f.id = alvo.id →
          f.historico = alvo.historico ++ [fazSnapshot alvo agora]
          ∧ f.ciclos = alvo.historico.length + 1)
    ∧ (∀ (subs : List (Fragmento × ℤ × String)) (slug : String),
        (∀ x ∈ subs, normalizarTexto x.1.tema = slug) →
        subs ≠ [] →
        (submeterTodos subs []).length = 1
        ∧ ∀ f ∈ submeterTodos subs [],
            f.historico.length = subs.length - 1 ∧ f.ciclos = f.historico.length)
    ∧ (∀ (idt : String) (idx : ℤ) (state state' : List Fragmento) (ok : Bool),
        invCiclos state →
        excluirRevisaoDoCiclo idt idx state ok = some state' →
        invCiclos state') := by
  refine ⟨?_, ?_, ?_, ?_⟩
  · intro novo agora freshId state hinv f hf
    simp only [salvarFragmentoNoFirestore] at hf
    cases halvo : alvoDe state novo with
    | none =>
      rw [halvo] at hf
      rcases List.mem_append.mp hf with hf | hf
      · exact hinv f hf
      · rw [List.mem_singleton.mp hf]
        rfl
    | some alvo =>
      rw [halvo] at hf
      obtain ⟨g, hg, rfl⟩ := List.mem_map.mp hf
      by_cases hid : (g.id == alvo.id) = true
      · rw [if_pos hid]
      · rw [if_neg hid]
        exact hinv g hg
  · intro novo agora freshId state alvo halvo f hf hfid
    simp only [salvarFragmentoNoFirestore, halvo] at hf
    obtain ⟨g, hg, rfl⟩ := List.mem_map.mp hf
    by_cases hid : (g.id == alvo.id) = true
    · rw [if_pos hid]
      exact ⟨rfl, by simp⟩
    · rw [if_neg hid] at hfid
      exact absurd (beq_iff_eq.mpr hfid) hid
  · intro subs slug h2 hne
    cases subs with
    | nil => exact absurd rfl hne
    | cons x subs =>
      have hx : normalizarTexto x.1.tema = slug := h2 x (List.mem_cons_self _ _)
      have hunfold : submeterTodos (x :: subs) []
          = submeterTodos subs (salvarFragmentoNoFirestore x.1 x.2.1 x.2.2 []) := rfl
      rw [hunfold, salvar_vazio]
      obtain ⟨r', h4, h5, h6, h7⟩ := submete_unico subs
        { x.1 with
          id := x.2.2
          temaSlug := normalizarTexto x.1.tema
          historico := []
          ciclos := 0
          ultimaRevisao := some x.2.1 } slug (by simp [hx])
        (fun y hy => h2 y (List.mem_cons_of_mem _ hy)) (by simp)
      rw [h4]
      refine ⟨rfl, ?_⟩
      intro f hf
      rw [List.mem_singleton.mp hf]
      refine ⟨?_, h7⟩
      rw [h6]
      simp
  · intro idt idx state state' ok hinv hex
    simp only [excluirRevisaoDoCiclo] at hex
    split at hex
    · exact Option.noConfusion hex
    · split at hex
      · split at hex
        · rw [← Option.some.inj hex]
          intro f hf
          obtain ⟨g, hg, rfl⟩ := List.mem_map.mp hf
          by_cases hid : (g.id == idt) = true
          · rw [if_pos hid]
          · rw [if_neg hid]
            exact hinv g hg
        · exact Option.noConfusion hex
      · exact Option.noConfusion hex

/-- Claim C2 witness — the four parts applied to concrete stores: a creation
into the empty store, a matching upsert onto a one-cycle record, three
sequential submissions of the topic `"Memória"`, and a confirmed deletion
of the only cycle. -/
theorem claim2_witness :
    invCiclos (salvarFragmentoNoFirestore fragClaim2 5 "w" [])
    ∧ (∀ f ∈ salvarFragmentoNoFirestore fragClaim2 40 "z" [fragClaim2Hist],
        f.id = fragClaim2Hist.id →
        f.historico = fragClaim2Hist.historico ++ [fazSnapshot fragClaim2Hist 40]
        ∧ f.ciclos = fragClaim2Hist.historico.length + 1)
    ∧ ((submeterTodos c2subs []).length = 1
        ∧ ∀ f ∈ submeterTodos c2subs [],
            f.historico.length = c2subs.length - 1 ∧ f.ciclos = f.historico.length)
    ∧ invCiclos [{ fragClaim2Hist with historico := [], ciclos := 0 }] :=
  ⟨claim2_ciclos.1 fragClaim2 5 "w" [] (by unfold invCiclos; decide),
   claim2_ciclos.2.1 fragClaim2 40 "z" [fragClaim2Hist] fragClaim2Hist (by decide),
   claim2_ciclos.2.2.1 c2subs "memoria" (by decide) (by decide),
   claim2_ciclos.2.2.2 "m" 0 [fragClaim2Hist] _ true (by unfold invCiclos; decide)
     (by decide)⟩

end Rememorium
